import Mathlib

/-!
Verification of the memory subsystem of Dolla-Llama-ZerePy.

This file shallowly embeds the two memory-subsystem modules,
`src/memory/store.py` (class `VectorStore`) and `src/memory/manager.py`
(class `MemoryManager`), and proves or refutes the frozen claims about them.

Modelling conventions:
* Python strings are modelled as `List Char` in the chunk splitter, where
  character-indexed slicing matters, and as Lean `String` elsewhere.
  Python's unicode-aware `str.isupper` / `str.strip` are modelled at ASCII
  precision, which is exact on ASCII input.
* The ChromaDB collection is modelled by its observable content: the three
  parallel lists `ids`, `documents`, `metadatas` that `collection.get()`
  exposes.  The embedding engine (`collection.query`, `collection.get` with
  a filter, `collection.add`, `client.delete_collection`) is an external
  capability; its answers, including the possibility of raising, are passed
  in as explicit `Except`-valued (or `Option String` failure) parameters.
* Python exceptions are modelled with `Except String`; a `try/except`
  that returns a default becomes a `match` on that `Except`.
* Similarity scores travel through the list-processing pipeline as exact
  rationals `ℚ`; the score transform `math.exp(-distance)` of
  `store.py` line 127 is kept abstract there (parameter `sim`) and its
  analytic properties are proved separately on `similarity_of_distance`
  over `ℝ`, floating point idealised as reals.
-/

/-! ### Python string primitives (over `List Char`) -/

/-- Python `str.strip()` with no argument: remove leading and trailing
whitespace (space, tab, CR, LF, FF, VT — `Char.isWhitespace` covers the
ASCII ones Python strips). -/
def pyStrip (s : List Char) : List Char :=
  ((s.dropWhile Char.isWhitespace).reverse.dropWhile Char.isWhitespace).reverse

/-- Python `str.splitlines()` restricted to `'\n'` line boundaries: splits at
newlines and does not produce a final empty line for a trailing newline. -/
def pySplitlinesGo : List Char → List Char → List (List Char)
  | [], cur => [cur.reverse]
  | c :: rest, cur =>
    if c = '\n' then
      cur.reverse :: (match rest with
        | [] => []
        | _ :: _ => pySplitlinesGo rest [])
    else pySplitlinesGo rest (c :: cur)

/-- Empty string: `"".splitlines() == []`; otherwise delegate to `pySplitlinesGo`. -/
def pySplitlines (s : List Char) : List (List Char) :=
  match s with
  | [] => []
  | _ :: _ => pySplitlinesGo s []

/-- Python `str.isupper()`: at least one cased character and no lowercase
cased character (ASCII model). -/
def pyIsupper (s : List Char) : Bool :=
  s.any Char.isUpper && !(s.any Char.isLower)

/-- Python `s.startswith(p)`. -/
def pyStartswith (p s : List Char) : Bool :=
  decide (s.take p.length = p)

/-- Python `s.lstrip('#')`: drop leading `'#'` characters. -/
def pyLstripHash (s : List Char) : List Char :=
  s.dropWhile (· = '#')

/-- Python slice `s[i:j]` for non-negative `i`, `j` (out-of-range indices
clamp, `j ≤ i` gives the empty string). -/
def pySlice (s : List Char) (i j : Nat) : List Char :=
  (s.drop i).take (j - i)

/-- Python `s.find(sub, i, j)` for non-negative bounds: the least index
`k ≥ i` at which `sub` occurs with `k + sub.length ≤ j` (and inside `s`),
or `none` where Python returns `-1`.  (`split_document` only calls `find`
with window start `end - 50`; Python's from-the-end reinterpretation of a
negative window start is not modelled — the claims below never evaluate
`find` on such a window, and Nat subtraction clamps it to 0.) -/
def pyFind (s sub : List Char) (i j : Nat) : Option Nat :=
  (List.range (s.length + 1)).find? fun k =>
    decide (i ≤ k) && decide (k + sub.length ≤ j) &&
    decide ((s.drop k).take sub.length = sub)

/-! ### Data model (`src/memory/types.py` is absent from the sources; the
`Memory` and `SearchResult` shapes are fixed by their keyword constructions
in `store.py` and by spec §3) -/

/-- A metadata value: Python scalars plus `None` plus an arbitrary
non-primitive object, the latter carried by its `str()` rendering
(that rendering is all `_clean_metadata` observes of it). -/
inductive MetaValue where
  | str (s : String)
  | int (n : Int)
  | float (q : ℚ)
  | bool (b : Bool)
  | none
  | other (repr : String)
deriving DecidableEq, Repr

/-- A Python metadata dict, as an insertion-ordered association list. -/
abbrev Metadata := List (String × MetaValue)

/-- Python `dict.get(k)` (returning `None` as `Option.none`). -/
def metaLookup (m : Metadata) (k : String) : Option MetaValue :=
  (m.find? fun p => p.1 = k).map Prod.snd

/-- Python `d[k] = v` / `dict.update({k: v})`: overwrite in place if the key
exists, otherwise append. -/
def metaSet (m : Metadata) (k : String) (v : MetaValue) : Metadata :=
  if m.any fun p => p.1 = k then
    m.map fun p => if p.1 = k then (k, v) else p
  else
    m ++ [(k, v)]

/-- The `Memory` value type (spec §3, as constructed throughout `store.py`). -/
structure Memory where
  id : String
  content : String
  category : String
  metadata : Metadata
deriving DecidableEq, Repr

/-- The `SearchResult` value type; the score is an exact rational here. -/
structure SearchResult where
  memory : Memory
  similarity_score : ℚ
deriving DecidableEq, Repr

/-- Observable content of one ChromaDB collection: the parallel lists that
`collection.get()` returns. -/
structure Collection where
  ids : List String
  documents : List String
  metadatas : List Metadata
deriving DecidableEq, Repr

/-- The empty, freshly created collection. -/
def emptyCollection : Collection := ⟨[], [], []⟩

/-- The `VectorStore`'s in-memory `self.collections` dict (insertion
ordered, keys unique in any state the code builds). -/
structure StoreState where
  collections : List (String × Collection)
deriving DecidableEq, Repr

/-- Python `category in self.collections` / `self.collections[category]`. -/
def lookupCollection (st : StoreState) (category : String) : Option Collection :=
  (st.collections.find? fun p => p.1 = category).map Prod.snd

/-- Assignment `self.collections[category] = col`: overwrite if present, else append. -/
def setCollection (st : StoreState) (category : String) (col : Collection) : StoreState :=
  if st.collections.any fun p => p.1 = category then
    ⟨st.collections.map fun p => if p.1 = category then (category, col) else p⟩
  else
    ⟨st.collections ++ [(category, col)]⟩

/-- Deletion `del self.collections[category]` (together with
`client.delete_collection`, whose persisted side we do not track beyond
the dict that mirrors it). -/
def removeCollection (st : StoreState) (category : String) : StoreState :=
  ⟨st.collections.filter fun p => decide (p.1 ≠ category)⟩

/-- One row of a `collection.query` answer: id, document, metadata and raw
distance, position `i` of `results['ids'][0]` etc. in `store.py`. -/
structure QueryRow where
  id : String
  document : String
  metadata : Metadata
  distance : ℚ
deriving DecidableEq, Repr

/-! ### VectorStore (`src/memory/store.py`) -/

namespace VectorStore

/-- The `_clean_metadata` value map (`store.py` 35–47): `None` becomes `""`,
non-primitive values are stringified, primitives pass through. -/
def cleanValue : MetaValue → MetaValue
  | .none => .str ""
  | .other r => .str r
  | v => v

/-- Method `_clean_metadata` (`store.py` 35–47): clean every value of the dict. -/
def _clean_metadata (metadata : Metadata) : Metadata :=
  metadata.map fun p => (p.1, cleanValue p.2)

/-- Method `add` (`store.py` 49–75).  `addErr = some msg` models
`collection.add` raising `msg`, which the method logs and re-raises
(`raise e`); `addErr = none` is the success path.  The collection is
lazily created (before the `try`, so it exists even when the engine call
then fails), the id is `str(len(collection.get()['ids']) + 1)`, the
indexed metadata is the cleaned one, and the returned `Memory` carries
the original metadata.  Returns the updated `self.collections` state
alongside the raised-or-returned `Memory`. -/
def add (st : StoreState) (addErr : Option String) (category content : String)
    (metadata : Metadata) : StoreState × Except String Memory :=
  let st1 := if (lookupCollection st category).isSome then st
             else setCollection st category emptyCollection
  let col := (lookupCollection st1 category).getD emptyCollection
  let memory_id := toString (col.ids.length + 1)
  let clean := _clean_metadata metadata
  match addErr with
  | some msg => (st1, .error msg)
  | Option.none =>
    (setCollection st1 category
      ⟨col.ids ++ [memory_id], col.documents ++ [content], col.metadatas ++ [clean]⟩,
     .ok ⟨memory_id, content, category, metadata⟩)

/-- Method `search` (`store.py` 77–144).  `engineQuery n` is the answer of
`collection.query(..., n_results=n, ...)` — the `filter_metadata` and the
query text are already closed over in it, `.error` models the engine
raising.  Absent category → `[]`; empty collection → `[]`; otherwise
`n_results` is clamped to the collection size before querying, each row's
distance is turned into a score by `sim` (the `math.exp(-distance)` of
line 127, kept abstract over `ℚ`), and any exception inside the `try` is
caught and turned into `[]`. -/
def search (st : StoreState) (engineQuery : Nat → Except String (List QueryRow))
    (sim : ℚ → ℚ) (category : String) (n_results : Nat) : List SearchResult :=
  match lookupCollection st category with
  | Option.none => []
  | some col =>
    let total_docs := col.ids.length
    if total_docs = 0 then []
    else
      match engineQuery (min n_results total_docs) with
      | .error _ => []
      | .ok rows =>
        rows.map fun r =>
          ⟨⟨r.id, r.document, category, r.metadata⟩, sim r.distance⟩

/-- Method `get_recent` (`store.py` 146–171).  `engineGet` is the answer of
`collection.get(where=filter_metadata, limit=n_results)` as (id, document,
metadata) rows; there is no `try/except` in this method, so an engine
error propagates.  Absent category → `ok []`; otherwise the rows are
turned into `Memory`s and reversed (most recent first). -/
def get_recent (st : StoreState)
    (engineGet : Except String (List (String × String × Metadata)))
    (category : String) : Except String (List Memory) :=
  match lookupCollection st category with
  | Option.none => .ok []
  | some _ =>
    match engineGet with
    | .error e => .error e
    | .ok rows =>
      .ok (rows.map fun r => Memory.mk r.1 r.2.1 category r.2.2).reverse

/-- Method `delete` (`store.py` 193–205).  `deleteErr = true` models
`collection.delete` raising, caught by the bare `except` → `False`.
Absent category → `False` with the state unchanged; otherwise the row
with the given id is removed from the collection. -/
def delete (st : StoreState) (deleteErr : Bool) (category memory_id : String) :
    Bool × StoreState :=
  match lookupCollection st category with
  | Option.none => (false, st)
  | some col =>
    if deleteErr then (false, st)
    else
      let keep := (col.ids.zip (col.documents.zip col.metadatas)).filter
        fun row => decide (row.1 ≠ memory_id)
      (true, setCollection st category
        ⟨keep.map Prod.fst, keep.map fun row => row.2.1, keep.map fun row => row.2.2⟩)

/-- Method `list_categories` (`store.py` 253–255): `list(self.collections.keys())`. -/
def list_categories (st : StoreState) : List String :=
  st.collections.map Prod.fst

/-- The method names defined on class `VectorStore` in
`src/memory/store.py`.  Note that `get_memories` is NOT among them: the
store's recency-retrieval method is named `get_recent`. -/
def methodNames : List String :=
  ["__init__", "_clean_metadata", "add", "search", "get_recent", "get",
   "delete", "get_or_create_collection", "update", "list_categories",
   "diagnose_collection"]

end VectorStore

/-! ### MemoryManager (`src/memory/manager.py`) -/

namespace MemoryManager

/-- Method `create` (`manager.py` 16–26): set `metadata["timestamp"]` to the
current time (`datetime.now().isoformat()`, passed in as `now`) and
delegate to `VectorStore.add`.  Nothing else is stamped — in particular
the manager holds no epoch state (`__init__`, `manager.py` 12–14, sets
only `self.store`) and defines no `increment_epoch` method. -/
def create (st : StoreState) (addErr : Option String) (now : String)
    (category content : String) (metadata : Metadata) :
    StoreState × Except String Memory :=
  VectorStore.add st addErr category content (metaSet metadata "timestamp" (.str now))

/-- The attribute access `self.store.get_memories` in `manager.py` line 78:
`get_memories` is not among `VectorStore.methodNames`, so the lookup
raises `AttributeError` — modelled as the `Except.error` this call always
is.  (The store's actual recency method is `get_recent`,
`store.py` 146–171.) -/
def storeGetMemoriesCall (st : StoreState) (category : String) (n_results : Nat)
    (filter_metadata : Option Metadata) : Except String (List Memory) :=
  if ("get_memories" ∈ VectorStore.methodNames) then
    .ok []
  else
    .error "AttributeError: VectorStore object has no attribute get_memories"

/-- Method `get_memories` (`manager.py` 70–81): `try: return
self.store.get_memories(...) except Exception: return []`. -/
def get_memories (st : StoreState) (category : String) (n_results : Nat)
    (filter_metadata : Option Metadata) : List Memory :=
  match storeGetMemoriesCall st category n_results filter_metadata with
  | .ok ms => ms
  | .error _ => []

/-- Method `list_categories` (`manager.py` 99–101): delegates to the store. -/
def list_categories (st : StoreState) : List String :=
  VectorStore.list_categories st

/-- Method `search` (`manager.py` 28–68).  `engines cat n` is the engine's answer
for `self.store.search(cat, query, n_results=n, ...)` (query text and
`filter_metadata` closed over); `sim` is the score transform, as in
`VectorStore.search`.  Resolves the `category` argument (`none` = all,
one name = that name if known, a list = intersection with known), fans
out `VectorStore.search` per category with the full `n_results`,
concatenates, sorts by descending score (Python's stable `list.sort`
with `reverse=True`), keeps scores strictly above `min_similarity`, and
truncates to `n_results`.  The sort-filter-truncate tail
(`manager.py` 61–68) is split out as `sortFilterTruncate`. -/
def sortFilterTruncate (results : List SearchResult) (n_results : Nat)
    (min_similarity : ℚ) : List SearchResult :=
  let sorted := results.mergeSort fun a b =>
    decide (b.similarity_score ≤ a.similarity_score)
  let filtered := sorted.filter fun r =>
    decide (min_similarity < r.similarity_score)
  filtered.take n_results

def search (st : StoreState) (engines : String → Nat → Except String (List QueryRow))
    (sim : ℚ → ℚ) (category : Option (String ⊕ List String))
    (n_results : Nat) (min_similarity : ℚ) : List SearchResult :=
  let available_categories := list_categories st
  if available_categories.isEmpty then []
  else
    let categories := match category with
      | Option.none => available_categories
      | some (.inl c) => if available_categories.contains c then [c] else []
      | some (.inr cs) => cs.filter fun c => available_categories.contains c
    let results := categories.foldl (fun acc cat =>
      if (lookupCollection st cat).isSome then
        acc ++ VectorStore.search st (engines cat) sim cat n_results
      else acc) []
    sortFilterTruncate results n_results min_similarity

/-- Method `delete_memory` (`manager.py` 320–322): delegates to the store. -/
def delete_memory (st : StoreState) (deleteErr : Bool) (category memory_id : String) :
    Bool × StoreState :=
  VectorStore.delete st deleteErr category memory_id

/-- Method `wipe_document` (`manager.py` 342–352): fetch up to 1000 memories via
`get_memories`, delete those whose `original_filename` metadata equals
`filename`, and return the number actually deleted.  (`deleteErr` models
`collection.delete` raising inside `delete_memory`.) -/
def wipe_document (st : StoreState) (deleteErr : Bool) (category filename : String) :
    Nat × StoreState :=
  let memories := get_memories st category 1000 Option.none
  memories.foldl
    (fun acc m =>
      if metaLookup m.metadata "original_filename" = some (.str filename) then
        let r := delete_memory acc.2 deleteErr category m.id
        (if r.1 then acc.1 + 1 else acc.1, r.2)
      else acc)
    (0, st)

/-- Method `remove_category` (`manager.py` 324–340).  `failsOn c = true` models
`client.delete_collection(c)` raising, which the method's own
`except Exception` turns into `return False` with the dict untouched.
When the category is absent the `if` body is skipped and the method
falls off the end, returning Python `None` (modelled `Option.none`);
success returns `True` after removing the dict entry. -/
def remove_category (failsOn : String → Bool) (st : StoreState) (category : String) :
    Option Bool × StoreState :=
  if (lookupCollection st category).isSome then
    if failsOn category then (some false, st)
    else (some true, removeCollection st category)
  else (Option.none, st)

/-- Method `wipe_all_memories` (`manager.py` 364–372): `remove_category` on every
known category.  Since `remove_category` catches every exception itself
(returning `False`, which this loop ignores), the surrounding
`try/except` can never fire and the method returns `True`
unconditionally. -/
def wipe_all_memories (failsOn : String → Bool) (st : StoreState) : Bool × StoreState :=
  (true, (list_categories st).foldl (fun s c => (remove_category failsOn s c).2) st)

end MemoryManager

/-! ### ChunkSplitter: `MemoryManager.split_document` (`manager.py` 103–186) -/

/-- One output chunk of `split_document`: the dict
`{'header': ..., 'content': ...}`. -/
structure Chunk where
  header : Option (List Char)
  content : List Char
deriving DecidableEq, Repr

/-- One coarse section (`manager.py` 119–142). -/
structure CoarseSection where
  header : Option (List Char)
  content : List Char
deriving DecidableEq, Repr

namespace MemoryManager

/-- Header test of `manager.py` line 127: the stripped line starts with
`"# "`, or is upper-case and longer than 4 characters. -/
def isHeaderLine (stripped : List Char) : Bool :=
  pyStartswith ['#', ' '] stripped || (pyIsupper stripped && decide (stripped.length > 4))

/-- Python `'\n'.join(lines)`. -/
def joinLines (lines : List (List Char)) : List Char :=
  List.intercalate ['\n'] lines

/-- The coarse-segmentation loop (`manager.py` 123–142): every header line
flushes the running section (if non-empty) and starts a new one whose
header is the line stripped of `'#'` markers; the header line itself is
the first line of the new section; a final non-empty running section is
flushed after the loop. -/
def coarseLoop (lines : List (List Char)) (current_header : Option (List Char))
    (current_section : List (List Char)) : List CoarseSection :=
  match lines with
  | [] =>
    if current_section.isEmpty then []
    else [⟨current_header, joinLines current_section⟩]
  | line :: rest =>
    let stripped := pyStrip line
    if isHeaderLine stripped then
      (if current_section.isEmpty then []
       else [⟨current_header, joinLines current_section⟩]) ++
      coarseLoop rest (some (pyStrip (pyLstripHash stripped))) [line]
    else
      coarseLoop rest current_header (current_section ++ [line])

/-- Coarse segmentation of the whole text (`manager.py` 119–142). -/
def coarse_sections (text : List Char) : List CoarseSection :=
  coarseLoop (pySplitlines text) Option.none []

/-- The per-iteration chunk end (`manager.py` 160–172):
`end = start + chunk_size`, optionally moved to a nearby sentence
(`". "`) or paragraph (`"\n\n"`) boundary when `respect_boundaries` and
`end < len(content)`. -/
def fineEnd (content : List Char) (chunk_size : Nat) (respect_boundaries : Bool)
    (start : Nat) : Nat :=
  let end0 := start + chunk_size
  if respect_boundaries && decide (end0 < content.length) then
    match pyFind content ['.', ' '] (end0 - 50) (end0 + 50) with
    | some sentence_end => sentence_end + 1
    | Option.none =>
      match pyFind content ['\n', '\n'] (end0 - 50) (end0 + 50) with
      | some para_end => para_end
      | Option.none => end0
  else end0

/-- The fine `while start < len(content)` loop (`manager.py` 158–184),
fuel-bounded.  Per iteration the slice `content[start:end].strip()` (with
`end` as computed by `fineEnd`) is emitted iff non-empty; then
`start = end - chunk_overlap`, clamped at 0 (Nat subtraction).  The fuel
only bounds the iteration count: Python itself loops forever when `start`
fails to advance (e.g. `chunk_size ≤ chunk_overlap` on long content), so
every property proved below quantifies over emitted chunks only. -/
def fineLoop (fuel : Nat) (content : List Char) (header : Option (List Char))
    (chunk_size chunk_overlap : Nat) (respect_boundaries : Bool) (start : Nat) :
    List Chunk :=
  match fuel with
  | 0 => []
  | fuel + 1 =>
    if start < content.length then
      let chunk_content :=
        pyStrip (pySlice content start (fineEnd content chunk_size respect_boundaries start))
      let rest := fineLoop fuel content header chunk_size chunk_overlap
        respect_boundaries ((fineEnd content chunk_size respect_boundaries start)
          - chunk_overlap)
      if chunk_content.isEmpty then rest else ⟨header, chunk_content⟩ :: rest
    else []

/-- Method `split_document` (`manager.py` 103–186): coarse segmentation, then per
section either one whole-section chunk with stripped content (when the
section fits in `chunk_size` — note: emitted even when the stripped
content is empty) or the overlapping fine chunks. -/
def split_document (text : List Char) (chunk_size chunk_overlap : Nat)
    (respect_boundaries : Bool) : List Chunk :=
  (coarse_sections text).foldl
    (fun sections sec =>
      if sec.content.length ≤ chunk_size then
        sections ++ [⟨sec.header, pyStrip sec.content⟩]
      else
        sections ++ fineLoop (sec.content.length + 1) sec.content sec.header
          chunk_size chunk_overlap respect_boundaries 0)
    []

end MemoryManager

/-! ### The similarity transform (`store.py` line 127) -/

/-- The transform `similarity_score = math.exp(-distance)` (`store.py` 124–127),
floating point idealised over the reals. -/
noncomputable def similarity_of_distance (d : ℝ) : ℝ :=
  Real.exp (-d)

/-! ### Helper lemmas -/

/-- Function `dropWhile` never lengthens a list. -/
theorem length_dropWhile_le (p : Char → Bool) (l : List Char) :
    (l.dropWhile p).length ≤ l.length := by
  induction l with
  | nil => simp
  | cons c t ih =>
    simp only [List.dropWhile]
    split
    · exact Nat.le_succ_of_le ih
    · simp

/-- Stripping never lengthens a string. -/
theorem pyStrip_length_le (s : List Char) : (pyStrip s).length ≤ s.length := by
  unfold pyStrip
  calc ((s.dropWhile Char.isWhitespace).reverse.dropWhile Char.isWhitespace).reverse.length
      = ((s.dropWhile Char.isWhitespace).reverse.dropWhile Char.isWhitespace).length := by
        simp
    _ ≤ (s.dropWhile Char.isWhitespace).reverse.length := length_dropWhile_le _ _
    _ = (s.dropWhile Char.isWhitespace).length := by simp
    _ ≤ s.length := length_dropWhile_le _ _

/-- A Python slice `s[i:j]` has at most `j - i` characters. -/
theorem pySlice_length_le (s : List Char) (i j : Nat) :
    (pySlice s i j).length ≤ j - i :=
  List.length_take_le _ _

/-- Running `find?` over the overwrite map of `setCollection` finds the overwritten
entry whenever the key occurs. -/
theorem find?_overwrite (l : List (String × Collection)) (category : String)
    (col : Collection) (h : (l.any fun p => p.1 = category) = true) :
    ((l.map fun p => if p.1 = category then (category, col) else p).find?
      fun p => p.1 = category) = some (category, col) := by
  induction l with
  | nil => simp at h
  | cons p t ih =>
    by_cases hp : p.1 = category
    · simp [List.find?, hp]
    · simp only [List.any_cons, Bool.or_eq_true, decide_eq_true_eq] at h
      have ht : (t.any fun p => p.1 = category) = true := by
        rcases h with h | h
        · exact absurd h hp
        · exact h
      simpa [List.find?, hp] using ih ht

/-- An absent key looks up to `none`. -/
theorem find?_eq_none_of_not_any (l : List (String × Collection)) (category : String)
    (h : (l.any fun p => p.1 = category) = false) :
    (l.find? fun p => p.1 = category) = none := by
  rw [List.find?_eq_none]
  intro x hx hpx
  have : (l.any fun p => p.1 = category) = true := List.any_eq_true.mpr ⟨x, hx, hpx⟩
  rw [h] at this
  exact Bool.false_ne_true this

/-- After `setCollection st category col`, looking up `category` yields
`col`. -/
theorem lookupCollection_setCollection_self (st : StoreState) (category : String)
    (col : Collection) :
    lookupCollection (setCollection st category col) category = some col := by
  unfold lookupCollection setCollection
  by_cases h : (st.collections.any fun p => p.1 = category) = true
  · simp only [h, if_true]
    rw [find?_overwrite st.collections category col h]
    rfl
  · have h' : (st.collections.any fun p => p.1 = category) = false := by
      revert h; cases st.collections.any fun p => p.1 = category <;> simp
    simp only [h', Bool.false_eq_true, if_false]
    rw [List.find?_append, find?_eq_none_of_not_any st.collections category h']
    simp [List.find?]

/-- A fold that appends per-element blocks equals the accumulator followed
by the flattened blocks. -/
theorem foldl_append_blocks {α β : Type} (f : α → List β) (l : List α) (acc : List β) :
    l.foldl (fun a s => a ++ f s) acc = acc ++ (l.map f).flatten := by
  induction l generalizing acc with
  | nil => simp
  | cons s t ih => simp [ih, List.append_assoc]

/-- Overwriting the value at key `k` does not change what `find?` sees at a
key different from `k`. -/
theorem find?_overwrite_ne (m : Metadata) (k k' : String) (v : MetaValue)
    (hkk : ¬ k = k') :
    (List.find? (fun p => p.1 = k') (m.map fun p => if p.1 = k then (k, v) else p)) =
      List.find? (fun p => p.1 = k') m := by
  induction m with
  | nil => rfl
  | cons p t ih =>
    by_cases hp : p.1 = k
    · have hp' : ¬ (p.1 = k') := by rw [hp]; exact fun hh => hkk hh
      rw [List.map_cons, show (if p.1 = k then (k, v) else p) = (k, v) from by simp [hp],
        List.find?_cons_of_neg _ (by simpa using hkk),
        List.find?_cons_of_neg _ (by simpa using hp')]
      exact ih
    · rw [List.map_cons, show (if p.1 = k then (k, v) else p) = p from by simp [hp]]
      by_cases hk2 : p.1 = k'
      · rw [List.find?_cons_of_pos _ (by simpa using hk2),
          List.find?_cons_of_pos _ (by simpa using hk2)]
      · rw [List.find?_cons_of_neg _ (by simpa using hk2),
          List.find?_cons_of_neg _ (by simpa using hk2)]
        exact ih

/-- Setting one key leaves the lookup of a different key unchanged. -/
theorem metaLookup_metaSet_of_ne (m : Metadata) (k k' : String) (v : MetaValue)
    (h : k' ≠ k) :
    metaLookup (metaSet m k v) k' = metaLookup m k' := by
  unfold metaLookup metaSet
  split
  · rw [find?_overwrite_ne m k k' v fun hh => h hh.symm]
  · rw [List.find?_append]
    have h1 : (List.find? (fun p => p.1 = k') [(k, v)]) = none := by
      rw [List.find?_cons_of_neg _ (by simpa using fun hh => h hh.symm)]
      rfl
    rw [h1]
    cases m.find? fun p => p.1 = k' <;> rfl

/-! ### Claims -/

/-- C2: for every store state, category, `n_results` and filter,
`MemoryManager.get_memories` returns the empty list regardless of the
memories actually stored: the method it invokes, `store.get_memories`,
is not among `VectorStore`'s methods (the store's retrieval method is
`get_recent`), so the call raises `AttributeError`, which the
`except Exception` clause converts to `[]`. -/
theorem c2_get_memories_always_empty (st : StoreState) (category : String)
    (n_results : Nat) (filter_metadata : Option Metadata) :
    MemoryManager.get_memories st category n_results filter_metadata = [] ∧
      "get_memories" ∉ VectorStore.methodNames :=
  ⟨rfl, by decide⟩

/-- C1 (code bug, evaluated at the failing input): on a store whose
category `"docs"` holds one memory with `original_filename = "a.txt"`,
`wipe_document("docs", "a.txt")` deletes nothing and returns 0 — the
matching memory is still indexed afterwards — because `get_memories`
always returns `[]` (see `c2_get_memories_always_empty`), even though the
claim (and the method's own docstring, "Delete all chunks belonging to a
specific document") requires the matching chunk to be deleted. -/
theorem c1_wipe_document_deletes_nothing :
    MemoryManager.wipe_document
        ⟨[("docs", ⟨["1"], ["chunk text"],
           [[("original_filename", MetaValue.str "a.txt")]]⟩)]⟩
        false "docs" "a.txt" =
      (0, ⟨[("docs", ⟨["1"], ["chunk text"],
           [[("original_filename", MetaValue.str "a.txt")]]⟩)]⟩) ∧
    metaLookup [("original_filename", MetaValue.str "a.txt")] "original_filename" =
      some (MetaValue.str "a.txt") :=
  ⟨rfl, rfl⟩

/-- C3 (counterexample): `MemoryManager.create` on a fresh store with empty
caller metadata produces a memory whose metadata holds exactly the
`timestamp` key — no `epoch_number` (and no `epoch`) is stamped, because
`create` (`manager.py` 16–26) only sets `timestamp` and the manager
(`manager.py` 12–14) holds no epoch state and defines no
`increment_epoch` method. -/
theorem c3_create_stamps_no_epoch :
    MemoryManager.create ⟨[]⟩ Option.none "t0" "notes" "hello" [] =
      (⟨[("notes", ⟨["1"], ["hello"], [[("timestamp", MetaValue.str "t0")]]⟩)]⟩,
       .ok ⟨"1", "hello", "notes", [("timestamp", MetaValue.str "t0")]⟩) ∧
    metaLookup [("timestamp", MetaValue.str "t0")] "epoch_number" = Option.none ∧
    metaLookup [("timestamp", MetaValue.str "t0")] "epoch" = Option.none :=
  ⟨rfl, rfl, rfl⟩

/-- C3 (amended): `create` stamps only `timestamp` into the metadata before
delegating to `VectorStore.add`; the manager keeps no epoch counter, so
the created memory carries no `epoch_number` key unless the caller already
supplied one. -/
theorem c3_create_stamps_only_timestamp (st : StoreState) (now category content : String)
    (metadata : Metadata)
    (h : metaLookup metadata "epoch_number" = Option.none) :
    ∃ st' mem, MemoryManager.create st Option.none now category content metadata =
        (st', .ok mem) ∧
      mem.metadata = metaSet metadata "timestamp" (.str now) ∧
      metaLookup mem.metadata "epoch_number" = Option.none := by
  refine ⟨_, _, rfl, rfl, ?_⟩
  rw [metaLookup_metaSet_of_ne _ _ _ _ (by decide)]
  exact h

/-- Witness for `c3_create_stamps_only_timestamp` at a concrete input. -/
theorem c3_create_stamps_only_timestamp_witness :
    metaLookup ([] : Metadata) "epoch_number" = Option.none ∧
    ∃ st' mem, MemoryManager.create ⟨[]⟩ Option.none "t0" "notes" "hi" [] =
        (st', .ok mem) ∧
      mem.metadata = metaSet [] "timestamp" (.str "t0") ∧
      metaLookup mem.metadata "epoch_number" = Option.none :=
  ⟨rfl, c3_create_stamps_only_timestamp ⟨[]⟩ "t0" "notes" "hi" [] rfl⟩

/-- C6: on the success path, `VectorStore.add` lazily creates the
category's collection (present afterwards in every case), assigns the id
`str(count + 1)` where `count` is the category's current memory count
(0 when the collection did not exist), indexes the *sanitized* metadata
(`None` → `""`, non-primitive → its `str()`), and returns a `Memory`
carrying the original unsanitized metadata. -/
theorem c6_add_spec (st : StoreState) (category content : String) (metadata : Metadata) :
    (∃ st' mem, VectorStore.add st Option.none category content metadata = (st', .ok mem) ∧
      mem.id = toString ((match lookupCollection st category with
        | some col => col.ids.length
        | Option.none => 0) + 1) ∧
      mem.content = content ∧
      mem.category = category ∧
      mem.metadata = metadata ∧
      (lookupCollection st' category).isSome ∧
      ((lookupCollection st' category).getD emptyCollection).metadatas.getLast? =
        some (VectorStore._clean_metadata metadata)) ∧
    VectorStore.cleanValue MetaValue.none = .str "" ∧
    (∀ r, VectorStore.cleanValue (.other r) = .str r) := by
  refine ⟨?_, rfl, fun r => rfl⟩
  cases hcol : lookupCollection st category with
  | some col0 =>
    refine ⟨setCollection st category
        ⟨col0.ids ++ [toString (col0.ids.length + 1)], col0.documents ++ [content],
         col0.metadatas ++ [VectorStore._clean_metadata metadata]⟩,
      ⟨toString (col0.ids.length + 1), content, category, metadata⟩,
      ?_, rfl, rfl, rfl, rfl, ?_, ?_⟩
    · unfold VectorStore.add
      simp only [hcol, Option.isSome_some, if_true, Option.getD_some]
    · rw [lookupCollection_setCollection_self]
      rfl
    · rw [lookupCollection_setCollection_self]
      simp [List.getLast?_concat]
  | none =>
    refine ⟨setCollection (setCollection st category emptyCollection) category
        ⟨[toString 1], [content], [VectorStore._clean_metadata metadata]⟩,
      ⟨toString 1, content, category, metadata⟩,
      ?_, rfl, rfl, rfl, rfl, ?_, ?_⟩
    · unfold VectorStore.add
      simp only [hcol, Option.isSome_none, Bool.false_eq_true, if_false,
        lookupCollection_setCollection_self, Option.getD_some]
      rfl
    · rw [lookupCollection_setCollection_self]
      rfl
    · rw [lookupCollection_setCollection_self]
      rfl

/-- C4 (counterexample): an exception raised by the index engine during
`VectorStore.get_recent` on an existing category is NOT caught — the
method has no `try/except` (`store.py` 146–171) — so the call propagates
the error instead of returning the empty list the claim requires. -/
theorem c4_get_recent_propagates :
    VectorStore.get_recent ⟨[("a", emptyCollection)]⟩ (Except.error "boom") "a" =
      Except.error "boom" ∧
    VectorStore.get_recent ⟨[("a", emptyCollection)]⟩ (Except.error "boom") "a" ≠
      Except.ok [] :=
  ⟨rfl, fun h => by rw [show VectorStore.get_recent ⟨[("a", emptyCollection)]⟩
    (Except.error "boom") "a" = Except.error "boom" from rfl] at h; exact Except.noConfusion h⟩

/-- C4 (amended): an index-engine exception during `VectorStore.search` is
caught and converted to `[]`, an exception during `VectorStore.add`
propagates, and an exception during `VectorStore.get_recent` on an
existing category also propagates (the claim wrongly said `get_recent`
degrades to an empty list as well). -/
theorem c4_error_handling (st : StoreState) (sim : ℚ → ℚ)
    (category content msg : String) (n : Nat) (metadata : Metadata) :
    VectorStore.search st (fun _ => Except.error msg) sim category n = [] ∧
    (VectorStore.add st (some msg) category content metadata).2 = Except.error msg ∧
    ((lookupCollection st category).isSome →
      VectorStore.get_recent st (Except.error msg) category = Except.error msg) := by
  refine ⟨?_, rfl, ?_⟩
  · unfold VectorStore.search
    cases lookupCollection st category with
    | none => rfl
    | some col => by_cases h0 : col.ids.length = 0 <;> simp [h0]
  · intro h
    obtain ⟨col, hcol⟩ := Option.isSome_iff_exists.mp h
    simp [VectorStore.get_recent, hcol]

/-- Witness for `c4_error_handling` at a concrete input. -/
theorem c4_error_handling_witness :
    (lookupCollection ⟨[("a", emptyCollection)]⟩ "a").isSome = true ∧
    VectorStore.get_recent ⟨[("a", emptyCollection)]⟩ (Except.error "em") "a" =
      Except.error "em" :=
  ⟨rfl, (c4_error_handling ⟨[("a", emptyCollection)]⟩ id "a" "c" "em" 3 []).2.2 rfl⟩

/-- When the engine deletion does not raise, one `remove_category` step
leaves exactly the entries at other keys. -/
theorem remove_category_step (failsOn : String → Bool) (st : StoreState) (c : String)
    (h : failsOn c = false) :
    ((MemoryManager.remove_category failsOn st c).2).collections =
      st.collections.filter fun p => decide (p.1 ≠ c) := by
  unfold MemoryManager.remove_category
  cases hc : lookupCollection st c with
  | some col =>
    simp only [hc, Option.isSome_some, if_true, h, Bool.false_eq_true, if_false]
    rfl
  | none =>
    simp only [hc, Option.isSome_none, Bool.false_eq_true, if_false]
    symm
    rw [List.filter_eq_self]
    intro p hp
    unfold lookupCollection at hc
    have hfind : (st.collections.find? fun p => p.1 = c) = none := by
      cases hfi : st.collections.find? fun p => p.1 = c
      · rfl
      · rw [hfi] at hc
        exact Option.noConfusion hc
    have h2 := List.find?_eq_none.mp hfind p hp
    simpa using h2

/-- Folding `remove_category` over a list of categories (none of which makes
the engine raise) filters exactly those keys out of the dict. -/
theorem wipe_fold (failsOn : String → Bool) (cats : List String) (st : StoreState)
    (h : ∀ c ∈ cats, failsOn c = false) :
    (cats.foldl (fun s c => (MemoryManager.remove_category failsOn s c).2) st).collections =
      st.collections.filter fun p => decide (p.1 ∉ cats) := by
  induction cats generalizing st with
  | nil => simp
  | cons c cs ih =>
    rw [List.foldl_cons, ih _ fun x hx => h x (List.mem_cons_of_mem c hx),
      remove_category_step failsOn st c (h c (List.mem_cons_self c cs)),
      List.filter_filter]
    apply List.filter_congr
    intro p hp
    by_cases h1 : p.1 = c <;> by_cases h2 : p.1 ∈ cs <;> simp [h1, h2]

/-- C9 (counterexample): on a store with the single category `"a"` whose
engine-side deletion raises, `wipe_all_memories` returns `true` — not the
`false` the claim requires — and the category survives, because
`remove_category` catches the exception itself and returns `False`, a
value the wipe loop ignores. -/
theorem c9_wipe_all_swallows_failure :
    (MemoryManager.wipe_all_memories (fun c => c == "a") ⟨[("a", emptyCollection)]⟩).1
      = true ∧
    (fun c => c == "a") "a" = true ∧
    MemoryManager.list_categories
      (MemoryManager.wipe_all_memories (fun c => c == "a")
        ⟨[("a", emptyCollection)]⟩).2 = ["a"] :=
  ⟨rfl, rfl, rfl⟩

/-- C9 (amended): `wipe_all_memories` calls `remove_category` on every
known category and always returns `true` (per-category failures are
swallowed inside `remove_category`); when no per-category deletion
raises, every category is removed and `list_categories` is empty
afterwards. -/
theorem c9_wipe_all_success (failsOn : String → Bool) (st : StoreState)
    (h : ∀ c ∈ MemoryManager.list_categories st, failsOn c = false) :
    (MemoryManager.wipe_all_memories failsOn st).1 = true ∧
    MemoryManager.list_categories (MemoryManager.wipe_all_memories failsOn st).2 = [] := by
  refine ⟨rfl, ?_⟩
  show ((MemoryManager.list_categories st).foldl
      (fun s c => (MemoryManager.remove_category failsOn s c).2) st).collections.map
        Prod.fst = []
  rw [wipe_fold failsOn _ st h]
  rw [List.filter_eq_nil_iff.mpr ?_]
  · rfl
  · intro p hp
    simp only [decide_eq_true_eq, Decidable.not_not]
    exact List.mem_map_of_mem Prod.fst hp

/-- Witness for `c9_wipe_all_success`: a successful wipe on categories
`{"a","b"}` leaves no categories. -/
theorem c9_wipe_all_success_witness :
    (MemoryManager.wipe_all_memories (fun _ => false)
      ⟨[("a", emptyCollection), ("b", emptyCollection)]⟩).1 = true ∧
    MemoryManager.list_categories
      (MemoryManager.wipe_all_memories (fun _ => false)
        ⟨[("a", emptyCollection), ("b", emptyCollection)]⟩).2 = [] :=
  c9_wipe_all_success (fun _ => false)
    ⟨[("a", emptyCollection), ("b", emptyCollection)]⟩ fun c _ => rfl

/-- C7: `VectorStore.search` returns `[]` on a nonexistent category and on
an existing but empty collection, and on a non-empty collection the
requested `n_results` is clamped to the collection's size before the
engine query — searching with `n` coincides with searching with
`min n size`. -/
theorem c7_search_missing_empty_clamp (st : StoreState)
    (engineQuery : Nat → Except String (List QueryRow)) (sim : ℚ → ℚ)
    (category : String) (n : Nat) :
    (lookupCollection st category = Option.none →
      VectorStore.search st engineQuery sim category n = []) ∧
    (∀ col, lookupCollection st category = some col → col.ids.length = 0 →
      VectorStore.search st engineQuery sim category n = []) ∧
    (∀ col, lookupCollection st category = some col →
      VectorStore.search st engineQuery sim category n =
        VectorStore.search st engineQuery sim category (min n col.ids.length)) := by
  refine ⟨?_, ?_, ?_⟩
  · intro h
    unfold VectorStore.search
    rw [h]
  · intro col h h0
    unfold VectorStore.search
    rw [h]
    simp [h0]
  · intro col h
    unfold VectorStore.search
    rw [h]
    by_cases h0 : col.ids.length = 0
    · simp [h0]
    · have hmin : min (min n col.ids.length) col.ids.length = min n col.ids.length := by
        rw [min_assoc, min_self]
      simp only [hmin]

/-- Witness for `c7_search_missing_empty_clamp` at concrete inputs. -/
theorem c7_search_missing_empty_clamp_witness :
    VectorStore.search ⟨[]⟩ (fun _ => Except.ok []) (fun q => q) "a" 5 = [] ∧
    VectorStore.search ⟨[("e", emptyCollection)]⟩ (fun _ => Except.ok [])
      (fun q => q) "e" 5 = [] ∧
    VectorStore.search ⟨[("a", ⟨["1"], ["d"], [[]]⟩)]⟩ (fun _ => Except.ok [])
        (fun q => q) "a" 5 =
      VectorStore.search ⟨[("a", ⟨["1"], ["d"], [[]]⟩)]⟩ (fun _ => Except.ok [])
        (fun q => q) "a" (min 5 1) :=
  ⟨(c7_search_missing_empty_clamp ⟨[]⟩ (fun _ => Except.ok []) (fun q => q) "a" 5).1 rfl,
   (c7_search_missing_empty_clamp ⟨[("e", emptyCollection)]⟩ (fun _ => Except.ok [])
     (fun q => q) "e" 5).2.1 emptyCollection rfl rfl,
   (c7_search_missing_empty_clamp ⟨[("a", ⟨["1"], ["d"], [[]]⟩)]⟩ (fun _ => Except.ok [])
     (fun q => q) "a" 5).2.2 ⟨["1"], ["d"], [[]]⟩ rfl⟩

/-- C10: the similarity transform of `store.py` line 127 is
`exp(-distance)`; for every raw distance `d ≥ 0` the score lies in
`(0, 1]`, and the transform is strictly monotonically decreasing in the
distance (higher score = more similar). -/
theorem c10_similarity_transform :
    (∀ d : ℝ, 0 ≤ d →
      0 < similarity_of_distance d ∧ similarity_of_distance d ≤ 1) ∧
    StrictAnti similarity_of_distance := by
  constructor
  · intro d hd
    refine ⟨Real.exp_pos _, ?_⟩
    rw [similarity_of_distance, Real.exp_le_one_iff]
    linarith
  · intro a b hab
    unfold similarity_of_distance
    exact Real.exp_lt_exp.mpr (by linarith)

/-- Witness for `c10_similarity_transform` at distances 0 and 1. -/
theorem c10_similarity_transform_witness :
    (0 < similarity_of_distance 1 ∧ similarity_of_distance 1 ≤ 1) ∧
    similarity_of_distance 1 < similarity_of_distance 0 :=
  ⟨c10_similarity_transform.1 1 (by norm_num),
   c10_similarity_transform.2 (by norm_num : (0:ℝ) < 1)⟩

/-- The sort-filter-truncate tail of `MemoryManager.search` yields a
non-increasing sequence, keeps only scores strictly above the threshold,
and respects the length bound. -/
theorem sortFilterTruncate_spec (results : List SearchResult) (n : Nat)
    (min_similarity : ℚ) :
    (MemoryManager.sortFilterTruncate results n min_similarity).Pairwise
      (fun a b => b.similarity_score ≤ a.similarity_score) ∧
    (∀ r ∈ MemoryManager.sortFilterTruncate results n min_similarity,
      min_similarity < r.similarity_score) ∧
    (MemoryManager.sortFilterTruncate results n min_similarity).length ≤ n := by
  have hsorted : (results.mergeSort fun a b =>
      decide (b.similarity_score ≤ a.similarity_score)).Pairwise
        (fun a b => b.similarity_score ≤ a.similarity_score) := by
    have h := @List.sorted_mergeSort SearchResult
      (fun a b => decide (b.similarity_score ≤ a.similarity_score))
      (fun a b c hab hbc => by
        simp only [decide_eq_true_eq] at *
        exact le_trans hbc hab)
      (fun a b => by
        simp only [Bool.or_eq_true, decide_eq_true_eq]
        exact le_total b.similarity_score a.similarity_score)
      results
    exact h.imp fun hle => of_decide_eq_true hle
  refine ⟨?_, ?_, List.length_take_le _ _⟩
  · exact (hsorted.filter _).sublist (List.take_sublist _ _)
  · intro r hr
    have hmem := List.mem_of_mem_take hr
    exact of_decide_eq_true (List.mem_filter.mp hmem).2

/-- C5: `MemoryManager.search` -- which concatenates the per-category
results, sorts them by non-increasing similarity, drops entries with
`similarity_score ≤ min_similarity` and truncates to `n_results` --
returns a sequence that is sorted non-increasingly by score, contains no
score `≤ min_similarity`, and has length `≤ n_results`. -/
theorem c5_manager_search_ranking (st : StoreState)
    (engines : String → Nat → Except String (List QueryRow)) (sim : ℚ → ℚ)
    (category : Option (String ⊕ List String)) (n_results : Nat) (min_similarity : ℚ) :
    (MemoryManager.search st engines sim category n_results min_similarity).Pairwise
      (fun a b => b.similarity_score ≤ a.similarity_score) ∧
    (∀ r ∈ MemoryManager.search st engines sim category n_results min_similarity,
      min_similarity < r.similarity_score) ∧
    (MemoryManager.search st engines sim category n_results min_similarity).length
      ≤ n_results := by
  by_cases hav : (MemoryManager.list_categories st).isEmpty
  · have he : MemoryManager.search st engines sim category n_results min_similarity
        = [] := by
      unfold MemoryManager.search
      rw [if_pos hav]
    rw [he]
    exact ⟨List.Pairwise.nil, fun r hr => absurd hr (List.not_mem_nil r), by simp⟩
  · unfold MemoryManager.search
    rw [if_neg (by simpa using hav)]
    exact sortFilterTruncate_spec _ n_results min_similarity

/-- Witness for `c5_manager_search_ranking`: a concrete one-result search
whose returned score is strictly above the threshold. -/
theorem c5_manager_search_ranking_witness :
    (⟨⟨"1", "apple pie", "notes", []⟩, (1:ℚ)/2⟩ : SearchResult) ∈
      MemoryManager.search ⟨[("notes", ⟨["1"], ["apple pie"], [[]]⟩)]⟩
        (fun _ _ => Except.ok [⟨"1", "apple pie", [], (1:ℚ)/2⟩])
        (fun d => d) (some (.inl "notes")) 2 0 ∧
    (0:ℚ) < (⟨⟨"1", "apple pie", "notes", []⟩, (1:ℚ)/2⟩ : SearchResult).similarity_score := by
  have hstep : MemoryManager.search ⟨[("notes", ⟨["1"], ["apple pie"], [[]]⟩)]⟩
        (fun _ _ => Except.ok [⟨"1", "apple pie", [], (1:ℚ)/2⟩])
        (fun d => d) (some (.inl "notes")) 2 0 =
      MemoryManager.sortFilterTruncate
        [⟨⟨"1", "apple pie", "notes", []⟩, (1:ℚ)/2⟩] 2 0 := rfl
  have heval : MemoryManager.sortFilterTruncate
        [(⟨⟨"1", "apple pie", "notes", []⟩, (1:ℚ)/2⟩ : SearchResult)] 2 0 =
      [⟨⟨"1", "apple pie", "notes", []⟩, (1:ℚ)/2⟩] := by
    simp [MemoryManager.sortFilterTruncate, List.filter]
  refine ⟨?_, ?_⟩
  · rw [hstep, heval]
    exact List.mem_singleton.mpr rfl
  · exact (c5_manager_search_ranking ⟨[("notes", ⟨["1"], ["apple pie"], [[]]⟩)]⟩
      (fun _ _ => Except.ok [⟨"1", "apple pie", [], (1:ℚ)/2⟩])
      (fun d => d) (some (.inl "notes")) 2 0).2.1
      ⟨⟨"1", "apple pie", "notes", []⟩, (1:ℚ)/2⟩
      (by rw [hstep, heval]; exact List.mem_singleton.mpr rfl)

/-- With `respect_boundaries = false` the chunk end is exactly
`start + chunk_size`. -/
theorem fineEnd_false (content : List Char) (C start : Nat) :
    MemoryManager.fineEnd content C false start = start + C := rfl

/-- Every chunk emitted by the fine loop is non-empty, and under
`respect_boundaries = false` is at most `chunk_size` characters long. -/
theorem fineLoop_chunks (content : List Char) (header : Option (List Char))
    (C ov : Nat) (rb : Bool) :
    ∀ fuel start ch, ch ∈ MemoryManager.fineLoop fuel content header C ov rb start →
      ch.content.isEmpty = false ∧ (rb = false → ch.content.length ≤ C) := by
  intro fuel
  induction fuel with
  | zero =>
    intro start ch h
    simp [MemoryManager.fineLoop] at h
  | succ fuel ih =>
    intro start ch h
    simp only [MemoryManager.fineLoop] at h
    by_cases hlt : start < content.length
    · rw [if_pos hlt] at h
      by_cases hemp : (pyStrip (pySlice content start
          (MemoryManager.fineEnd content C rb start))).isEmpty
      · rw [if_pos hemp] at h
        exact ih _ ch h
      · rw [if_neg hemp] at h
        rcases List.mem_cons.mp h with hc | hc
        · subst hc
          refine ⟨by simpa using hemp, ?_⟩
          intro hrb
          subst hrb
          rw [fineEnd_false]
          calc (pyStrip (pySlice content start (start + C))).length
              ≤ (pySlice content start (start + C)).length := pyStrip_length_le _
            _ ≤ (start + C) - start := pySlice_length_le _ _ _
            _ = C := Nat.add_sub_cancel_left start C
        · exact ih _ ch hc
    · rw [if_neg hlt] at h
      simp at h

/-- The per-section fold of `split_document`, written as flattened
per-section blocks. -/
theorem split_fold_blocks (secs : List CoarseSection) (C ov : Nat) (rb : Bool)
    (acc : List Chunk) :
    secs.foldl (fun sections sec =>
        if sec.content.length ≤ C then
          sections ++ [⟨sec.header, pyStrip sec.content⟩]
        else
          sections ++ MemoryManager.fineLoop (sec.content.length + 1) sec.content
            sec.header C ov rb 0) acc =
      acc ++ (secs.map fun sec =>
        if sec.content.length ≤ C then [(⟨sec.header, pyStrip sec.content⟩ : Chunk)]
        else MemoryManager.fineLoop (sec.content.length + 1) sec.content
          sec.header C ov rb 0).flatten := by
  induction secs generalizing acc with
  | nil => simp
  | cons sec t ih =>
    rw [List.foldl_cons, List.map_cons, List.flatten_cons]
    by_cases h : sec.content.length ≤ C
    · rw [if_pos h, if_pos h, ih, List.append_assoc]
    · rw [if_neg h, if_neg h, ih, List.append_assoc]

/-- Membership in `split_document`: every chunk comes either whole from a
short coarse section or from the fine loop of an oversized one. -/
theorem mem_split_document (text : List Char) (C ov : Nat) (rb : Bool) (ch : Chunk)
    (h : ch ∈ MemoryManager.split_document text C ov rb) :
    ∃ sec, sec ∈ MemoryManager.coarse_sections text ∧
      ((sec.content.length ≤ C ∧ ch = ⟨sec.header, pyStrip sec.content⟩) ∨
       (¬ sec.content.length ≤ C ∧
         ch ∈ MemoryManager.fineLoop (sec.content.length + 1) sec.content
           sec.header C ov rb 0)) := by
  unfold MemoryManager.split_document at h
  rw [split_fold_blocks, List.nil_append] at h
  rcases List.mem_flatten.mp h with ⟨block, hblock, hch⟩
  rcases List.mem_map.mp hblock with ⟨sec, hsec, rfl⟩
  refine ⟨sec, hsec, ?_⟩
  by_cases hlen : sec.content.length ≤ C
  · rw [if_pos hlen] at hch
    exact Or.inl ⟨hlen, List.mem_singleton.mp hch⟩
  · rw [if_neg hlen] at hch
    exact Or.inr ⟨hlen, hch⟩

/-- C8 (counterexample): `split_document` on the two-space text `"  "`
returns one chunk whose content is EMPTY after trimming — the whole-
section path (`manager.py` 150–155) strips but never checks
non-emptiness — refuting "returns only chunks whose content is non-empty
after whitespace trimming". -/
theorem c8_short_section_empty_chunk :
    MemoryManager.split_document [' ', ' '] 500 100 false = [⟨Option.none, []⟩] ∧
    (Chunk.content ⟨Option.none, []⟩).isEmpty = true :=
  ⟨rfl, rfl⟩

/-- C8 (amended): every empty-after-trimming chunk of
`split_document text C overlap rb` is the whole-section chunk of a coarse
section that fits in `C` (chunks emitted by the overlapping-chunk loop
are always non-empty), and with `respect_boundaries = false` every
chunk's content has length at most `C`. -/
theorem c8_split_document_bounds (text : List Char) (chunk_size chunk_overlap : Nat)
    (rb : Bool) :
    (∀ ch ∈ MemoryManager.split_document text chunk_size chunk_overlap rb,
      ch.content.isEmpty = true →
        ∃ sec, sec ∈ MemoryManager.coarse_sections text ∧
          sec.content.length ≤ chunk_size ∧ ch = ⟨sec.header, pyStrip sec.content⟩) ∧
    (∀ ch ∈ MemoryManager.split_document text chunk_size chunk_overlap false,
      ch.content.length ≤ chunk_size) := by
  constructor
  · intro ch hch hemp
    rcases mem_split_document text chunk_size chunk_overlap rb ch hch with
      ⟨sec, hsec, hcase⟩
    rcases hcase with ⟨hlen, rfl⟩ | ⟨hlen, hfine⟩
    · exact ⟨sec, hsec, hlen, rfl⟩
    · have hne := (fineLoop_chunks sec.content sec.header chunk_size chunk_overlap
        rb _ _ ch hfine).1
      rw [hemp] at hne
      exact absurd hne (by simp)
  · intro ch hch
    rcases mem_split_document text chunk_size chunk_overlap false ch hch with
      ⟨sec, hsec, hcase⟩
    rcases hcase with ⟨hlen, rfl⟩ | ⟨hlen, hfine⟩
    · calc (pyStrip sec.content).length
          ≤ sec.content.length := pyStrip_length_le _
        _ ≤ chunk_size := hlen
    · exact (fineLoop_chunks sec.content sec.header chunk_size chunk_overlap
        false _ _ ch hfine).2 rfl

/-- Witness for `c8_split_document_bounds`: the empty chunk of `"  "` comes
from a short coarse section, and a loop chunk of a 10-character text at
`chunk_size = 4` has length at most 4. -/
theorem c8_split_document_bounds_witness :
    (∃ sec, sec ∈ MemoryManager.coarse_sections [' ', ' '] ∧
      sec.content.length ≤ 500 ∧
      (⟨Option.none, []⟩ : Chunk) = ⟨sec.header, pyStrip sec.content⟩) ∧
    (Chunk.content ⟨Option.none, ['a', 'b', 'c', 'd']⟩).length ≤ 4 :=
  ⟨(c8_split_document_bounds [' ', ' '] 500 100 false).1 ⟨Option.none, []⟩
      (by decide) rfl,
   (c8_split_document_bounds ['a', 'b', 'c', 'd', 'e', 'f', 'g', 'h', 'i', 'j'] 4 1
      false).2 ⟨Option.none, ['a', 'b', 'c', 'd']⟩ (by decide)⟩
